import Mathlib

/- Shallow embedding of the Report Aggregation and Serving Engine of the
   api-automation repository, together with the dashboard pages that consume it.
   The engine itself (report_api.py, launched by startup.sh on port 5001) is not
   among the available source files, so its data model and operations are
   modelled from the specification; the dashboard pages (Dashboard.jsx and the
   TestTypeDetail page) are translated from the React sources. -/

namespace ReportsEngine

/-- Pass and fail counts of one test-execution run. -/
structure Summary where
  total : Nat
  passed : Nat
  failed : Nat
deriving DecidableEq

/-- Modelled from the spec: the canonical Report entity produced by the Report
Parser of the engine (report_api.py is absent from the sources). The id is a
natural number derived deterministically from the source filename, timestamps
are points in time ordered as naturals. -/
structure Report where
  id : Nat
  category : String
  timestamp : Nat
  summary : Summary
deriving DecidableEq

/-- Modelled from the spec: the serving order of reports, timestamp descending
with ties broken by id descending. descOrder a b says a comes no later than b
in that order. -/
def descOrder (a b : Report) : Prop :=
  b.timestamp < a.timestamp ∨ (b.timestamp = a.timestamp ∧ b.id ≤ a.id)

instance : DecidableRel descOrder := fun a b => by
  unfold descOrder; exact inferInstance

instance : IsTotal Report descOrder :=
  ⟨fun a b => by simp only [descOrder]; omega⟩

instance : IsTrans Report descOrder :=
  ⟨fun a b c hab hbc => by simp only [descOrder] at *; omega⟩

/-- Modelled from the spec: the Store sorts a category's reports by timestamp
descending, ties broken by id descending. -/
def sortReports (rs : List Report) : List Report :=
  List.insertionSort descOrder rs

/-- Modelled from the spec: listReports(category, limit, offset) over the
category's reports, sorted descending and sliced to the requested window. -/
def listReports (rs : List Report) (limit offset : Nat) : List Report :=
  ((sortReports rs).drop offset).take limit

/-- Modelled from the spec: the latest report of a category, the one with the
greatest timestamp, ties broken by id descending. -/
def latestReport (rs : List Report) : Option Report :=
  (sortReports rs).head?

/-- Two right-padded decimal digits, for fixed two-decimal percentage strings. -/
def pad2 (n : Nat) : String :=
  if n < 10 then "0" ++ toString n else toString n

/-- Modelled from the spec: passed/total rendered as a percentage string with a
fixed precision of two decimals (half-up rounding), and 0 when total is 0 so
the division is never performed with a zero divisor. -/
def formatPercent (passed total : Nat) : String :=
  if total = 0 then "0.00%"
  else
    let h := (passed * 10000 * 2 + total) / (2 * total)
    toString (h / 100) ++ "." ++ pad2 (h % 100) ++ "%"

/-- Modelled from the spec: pass_rate is derived from the counts, never stored
independently. -/
def passRate (s : Summary) : String :=
  formatPercent s.passed s.total

/-- Modelled from the spec: the aggregate statistics served by /api/stats. -/
structure GlobalStats where
  total : Nat
  passed : Nat
  failed : Nat
  pass_rate : String
deriving DecidableEq

/-- The summaries of the latest report of every category that has reports; a
category with no reports contributes nothing. -/
def latestSummaries (store : List (String × List Report)) : List Summary :=
  store.filterMap fun c => (latestReport c.2).map Report.summary

/-- Modelled from the spec: globalStats() sums the summary fields across the
latest report of every category that has reports, with an aggregate
pass_rate. -/
def globalStats (store : List (String × List Report)) : GlobalStats :=
  let t := ((latestSummaries store).map Summary.total).sum
  let p := ((latestSummaries store).map Summary.passed).sum
  let f := ((latestSummaries store).map Summary.failed).sum
  { total := t, passed := p, failed := f, pass_rate := formatPercent p t }

/-- Modelled from the spec: one point of the historical trend series. -/
structure HistoryPoint where
  timestamp : Nat
  formatted_time : String
  summary : Summary
deriving DecidableEq

/-- Modelled from the spec: the human-readable time string derived from a
report's timestamp. -/
def formatTime (ts : Nat) : String :=
  toString ts

/-- The history point carrying a report's timestamp, formatted time and
summary. -/
def toHistoryPoint (r : Report) : HistoryPoint :=
  { timestamp := r.timestamp, formatted_time := formatTime r.timestamp,
    summary := r.summary }

/-- Modelled from the spec: history(category, limit) takes the limit most
recent reports (descending timestamp) and re-orders them ascending for
charting. -/
def history (rs : List Report) (limit : Nat) : List HistoryPoint :=
  (((sortReports rs).take limit).reverse).map toHistoryPoint

/-- Modelled from the spec: one on-disk report document as the Parser sees it:
a timestamp field that may be absent or unparseable, the three counts, and
unknown extra fields that the parser must ignore. -/
structure RawDoc where
  rawTimestamp : Option String
  total : Nat
  passed : Nat
  failed : Nat
  extraFields : List (String × String)
deriving DecidableEq

/-- Modelled from the spec: a ParseError identifies the offending file by its
category and path. -/
inductive ParseError where
  | MissingField (category filePath : String)
  | InvariantViolation (category filePath : String)
deriving DecidableEq

/-- Modelled from the spec: the stable id derived deterministically from the
source filename. -/
def fileId (filePath : String) : Nat :=
  filePath.data.foldl (fun a c => a * 256 + c.toNat) 0

/-- Modelled from the spec: a timestamp string is parseable when it is a
non-empty run of decimal digits; its value is the decimal reading. -/
def parseTimestamp (s : String) : Option Nat :=
  if s.data ≠ [] ∧ s.data.all Char.isDigit then
    some (s.data.foldl (fun n c => n * 10 + (c.toNat - 48)) 0)
  else none

/-- Modelled from the spec: the Report Parser. Validation rules in the spec's
order: the summary counts must satisfy total = passed + failed
(InvariantViolation otherwise), and the timestamp must be present and
parseable (MissingField otherwise); unknown extra fields are ignored. -/
def parseReport (category filePath : String) (doc : RawDoc) :
    Except ParseError Report :=
  if doc.total = doc.passed + doc.failed then
    match doc.rawTimestamp.bind parseTimestamp with
    | some ts =>
      Except.ok { id := fileId filePath, category := category, timestamp := ts,
                  summary := { total := doc.total, passed := doc.passed,
                               failed := doc.failed } }
    | none => Except.error (ParseError.MissingField category filePath)
  else Except.error (ParseError.InvariantViolation category filePath)

/-- Modelled from the spec: scanning one category's files: every file that
parses contributes its report, every file that fails to parse is skipped and
counted, and the scan itself never fails. -/
def scanCategory (category : String) (files : List (String × RawDoc)) :
    List Report × Nat :=
  match files with
  | [] => ([], 0)
  | (p, d) :: rest =>
    let r := scanCategory category rest
    match parseReport category p d with
    | Except.ok rep => (rep :: r.1, r.2)
    | Except.error _ => (r.1, r.2 + 1)

/-- Modelled from the spec: a category's query response computed from that
category's files alone. -/
def categoryResponse (store : String → List (String × RawDoc))
    (category : String) : List Report × Nat :=
  scanCategory category (store category)

/-- Replacing one category's files in the store, leaving the others alone. -/
def updateStore (store : String → List (String × RawDoc)) (c : String)
    (files : List (String × RawDoc)) : String → List (String × RawDoc) :=
  fun x => if x = c then files else store x

/-- Modelled from the spec: one file of a category's directory, with its
current modification time. -/
structure DiskFile where
  path : String
  mtime : Nat
  doc : RawDoc
deriving DecidableEq

/-- Modelled from the spec: a cache entry keyed by file path, holding the
parsed report and the modification time the file had when parsed. -/
structure CacheEntry where
  report : Report
  sourceModifiedAt : Nat
deriving DecidableEq

/-- The cache of one category: an association of file path to entry. -/
abbrev Cache := List (String × CacheEntry)

/-- Parsing a disk file into a fresh cache entry; the Bool records that the
Parser was invoked on the file. -/
def parseNew (category : String) (f : DiskFile) : Option CacheEntry × Bool :=
  match parseReport category f.path f.doc with
  | Except.ok r => (some { report := r, sourceModifiedAt := f.mtime }, true)
  | Except.error _ => (none, true)

/-- Modelled from the spec: refresh on one file: if a cache entry exists and
its sourceModifiedAt equals the file's current modification time the entry is
reused without parsing, otherwise the file is re-parsed. -/
def refreshFile (category : String) (cache : Cache) (f : DiskFile) :
    Option CacheEntry × Bool :=
  match List.lookup f.path cache with
  | some e =>
    if e.sourceModifiedAt = f.mtime then (some e, false) else parseNew category f
  | none => parseNew category f

/-- Modelled from the spec: refresh(category) rescans the directory, building a
new snapshot from the files currently on disk (so files removed from disk are
evicted), and returns with it the paths on which the Parser was invoked. -/
def refreshCache (category : String) (disk : List DiskFile) (cache : Cache) :
    Cache × List String :=
  (disk.filterMap fun f => ((refreshFile category cache f).1).map fun e => (f.path, e),
   (disk.filter fun f => (refreshFile category cache f).2).map DiskFile.path)

/-- A cache is coherent with the disk when every entry whose stored
sourceModifiedAt equals the file's current modification time holds exactly the
parse of that file's current content. -/
def Coherent (category : String) (disk : List DiskFile) (cache : Cache) : Prop :=
  ∀ p e f, (p, e) ∈ cache → f ∈ disk → f.path = p →
    e.sourceModifiedAt = f.mtime → parseReport category p f.doc = Except.ok e.report

/-- One entry of the /api/reports/summary mapping as Dashboard.jsx consumes
it. -/
structure CategoryData where
  has_reports : Bool
  total_reports : Nat
  latest : Option Report
deriving DecidableEq

/-- Dashboard.jsx line 77: the categories whose cards are rendered are exactly
the summary entries whose has_reports is set. -/
def testTypesWithData (summary : List (String × CategoryData)) :
    List (String × CategoryData) :=
  summary.filter fun c => c.2.has_reports

/-- What the Test Types section of Dashboard.jsx renders: the placeholder or
the grid of cards. -/
inductive TestTypesView where
  | placeholder
  | grid (cards : List (String × CategoryData))
deriving DecidableEq

/-- Dashboard.jsx lines 110-117: the placeholder is rendered when no category
has reports, the grid of the filtered entries otherwise. -/
def testTypesSection (summary : List (String × CategoryData)) : TestTypesView :=
  if (testTypesWithData summary).length = 0 then TestTypesView.placeholder
  else TestTypesView.grid (testTypesWithData summary)

/-- TestTypeDetail line 13: reportsPerPage = 10. -/
def reportsPerPage : Nat := 10

/-- TestTypeDetail line 43: indexOfLastReport = currentPage * reportsPerPage. -/
def indexOfLastReport (currentPage : Nat) : Nat :=
  currentPage * reportsPerPage

/-- TestTypeDetail line 44: indexOfFirstReport = indexOfLastReport -
reportsPerPage. -/
def indexOfFirstReport (currentPage : Nat) : Nat :=
  indexOfLastReport currentPage - reportsPerPage

/-- TestTypeDetail line 45: currentReports =
reports.slice(indexOfFirstReport, indexOfLastReport). -/
def currentReports (reports : List Report) (currentPage : Nat) : List Report :=
  (reports.drop (indexOfFirstReport currentPage)).take
    (indexOfLastReport currentPage - indexOfFirstReport currentPage)

/-- TestTypeDetail line 46: totalPages = Math.ceil(reports.length /
reportsPerPage). -/
def totalPages (n : Nat) : Nat :=
  (n + reportsPerPage - 1) / reportsPerPage

/-- TestTypeDetail line 214: the Previous button is disabled when currentPage
is 1. -/
def prevDisabled (currentPage : Nat) : Bool :=
  currentPage == 1

/-- TestTypeDetail line 236: the Next button is disabled when currentPage is
totalPages. -/
def nextDisabled (currentPage tp : Nat) : Bool :=
  currentPage == tp

/- Concrete values used by the scenario conjuncts and the witnesses. -/

/-- A well-formed raw document: timestamp 5, counts 3 = 2 + 1. -/
def demoDoc : RawDoc :=
  { rawTimestamp := some "5", total := 3, passed := 2, failed := 1,
    extraFields := [("runner", "agentic")] }

/-- A raw document violating the summary invariant and missing its timestamp:
counts 5, 1, 1 and no timestamp field. -/
def demoBadDoc : RawDoc :=
  { rawTimestamp := none, total := 5, passed := 1, failed := 1,
    extraFields := [] }

/-- A raw document whose only defect is the missing timestamp. -/
def demoNoTsDoc : RawDoc :=
  { rawTimestamp := none, total := 2, passed := 2, failed := 0,
    extraFields := [] }

/-- The report that parsing demoDoc as integration/a.json produces. -/
def demoReport : Report :=
  { id := fileId "a.json", category := "integration", timestamp := 5,
    summary := { total := 3, passed := 2, failed := 1 } }

/-- Integration run at time 1: 3 tests, 2 passed (the older report of the C7
scenario). -/
def demoT1 : Report :=
  { id := 1, category := "integration", timestamp := 1,
    summary := { total := 3, passed := 2, failed := 1 } }

/-- Integration run at time 2: 3 tests, all passed (the newer report of the C7
scenario). -/
def demoT2 : Report :=
  { id := 2, category := "integration", timestamp := 2,
    summary := { total := 3, passed := 3, failed := 0 } }

/-- Older integration run of the C1 scenario: 7 tests, 3 passed, at time 1. -/
def demoOldInt : Report :=
  { id := 3, category := "integration", timestamp := 1,
    summary := { total := 7, passed := 3, failed := 4 } }

/-- Latest integration run of the C1 scenario: 10 tests, 8 passed, at time 2. -/
def demoNewInt : Report :=
  { id := 4, category := "integration", timestamp := 2,
    summary := { total := 10, passed := 8, failed := 2 } }

/-- The sole system run of the C1 scenario: 5 tests, all passed. -/
def demoSys : Report :=
  { id := 5, category := "system", timestamp := 1,
    summary := { total := 5, passed := 5, failed := 0 } }

/-- The C1 scenario store: integration has two historical reports whose latest
is demoNewInt, system has one report, component has none. -/
def demoStore : List (String × List Report) :=
  [("integration", [demoOldInt, demoNewInt]), ("system", [demoSys]),
   ("component", [])]

/-- The C5 scenario files: one malformed file alongside two valid files. -/
def demoFiles : List (String × RawDoc) :=
  [("bad.json", demoBadDoc),
   ("a.json", demoDoc),
   ("b.json", { demoDoc with rawTimestamp := some "7" })]

/-- A one-file directory snapshot used by the cache-coherency witness. -/
def demoDisk : List DiskFile :=
  [{ path := "a.json", mtime := 1, doc := demoDoc }]

end ReportsEngine

namespace ReportsEngine

theorem descOrder_refl (a : Report) : descOrder a a :=
  Or.inr ⟨rfl, Nat.le_refl _⟩

theorem sortReports_sorted (rs : List Report) :
    List.Sorted descOrder (sortReports rs) :=
  List.sorted_insertionSort descOrder rs

theorem sortReports_perm (rs : List Report) : List.Perm (sortReports rs) rs :=
  List.perm_insertionSort descOrder rs

/-- Claim C2: listReports returns the category's reports sorted by timestamp
descending with ties broken by id descending, sliced to the window
[offset, offset+limit); an offset at or beyond the number of available reports
yields the empty sequence, never an error. -/
theorem listReports_ordered_window (rs : List Report) (limit offset : Nat) :
    List.Sorted descOrder (listReports rs limit offset)
    ∧ List.Perm (sortReports rs) rs
    ∧ (∀ i, i < limit → (listReports rs limit offset)[i]? = (sortReports rs)[offset + i]?)
    ∧ (listReports rs limit offset).length ≤ limit
    ∧ (rs.length ≤ offset → listReports rs limit offset = []) := by
  refine ⟨?_, sortReports_perm rs, ?_, ?_, ?_⟩
  · exact ((sortReports_sorted rs).sublist ((List.drop_sublist _ _).trans
      (List.Sublist.refl _))).sublist (List.take_sublist _ _)
  · intro i hi
    unfold listReports
    rw [List.getElem?_take_of_lt hi, List.getElem?_drop]
  · unfold listReports
    calc (((sortReports rs).drop offset).take limit).length
        = min limit ((sortReports rs).drop offset).length := List.length_take _ _
      _ ≤ limit := Nat.min_le_left _ _
  · intro hoff
    unfold listReports
    have hlen : (sortReports rs).length = rs.length := (sortReports_perm rs).length_eq
    rw [List.drop_eq_nil_of_le (by omega), List.take_nil]

theorem latestReport_max (rs : List Report) (hne : rs ≠ []) :
    ∃ r, latestReport rs = some r ∧ r ∈ rs ∧ ∀ r2 ∈ rs, descOrder r r2 := by
  have hperm := sortReports_perm rs
  have hs := sortReports_sorted rs
  rcases h : sortReports rs with _ | ⟨a, t⟩
  · rw [h] at hperm
    exact absurd (hperm.symm.eq_nil) hne
  · rw [h] at hperm hs
    refine ⟨a, ?_, ?_, ?_⟩
    · unfold latestReport
      rw [h]
      rfl
    · exact hperm.mem_iff.mp (List.mem_cons_self a t)
    · intro r2 hr2
      rcases List.mem_cons.mp (hperm.mem_iff.mpr hr2) with heq | hmem
      · exact heq ▸ descOrder_refl a
      · exact (List.sorted_cons.mp hs).1 r2 hmem

theorem latestReport_nil : latestReport [] = none := rfl

/-- Claim C1: globalStats is the field-wise sum of the summaries of the latest
report (greatest timestamp, ties broken by id descending) of every category
that has at least one report -- latest-per-category, not a sum over all
historical reports -- and its pass_rate is the aggregate passed/total rendered
as a fixed two-decimal percentage string; the scenario store whose latest
reports are 10/8 and 5/5 yields total 15, passed 13, failed 2, pass_rate
"86.67%". -/
theorem globalStats_latest_per_category (store : List (String × List Report)) :
    (globalStats store).total = ((latestSummaries store).map Summary.total).sum
    ∧ (globalStats store).passed = ((latestSummaries store).map Summary.passed).sum
    ∧ (globalStats store).failed = ((latestSummaries store).map Summary.failed).sum
    ∧ (globalStats store).pass_rate
        = formatPercent (globalStats store).passed (globalStats store).total
    ∧ (∀ c rs, (c, rs) ∈ store → rs ≠ [] →
        ∃ r, latestReport rs = some r ∧ r ∈ rs ∧ ∀ r2 ∈ rs, descOrder r r2)
    ∧ (∀ c, globalStats ((c, []) :: store) = globalStats store)
    ∧ globalStats demoStore
        = { total := 15, passed := 13, failed := 2, pass_rate := "86.67%" } := by
  refine ⟨rfl, rfl, rfl, rfl, ?_, ?_, ?_⟩
  · intro c rs _ hne
    exact latestReport_max rs hne
  · intro c
    simp [globalStats, latestSummaries, latestReport_nil]
  · rfl

theorem descOrder_timestamp {a b : Report} (h : descOrder b a) :
    a.timestamp ≤ b.timestamp := by
  rcases h with h | ⟨h, _⟩
  · exact Nat.le_of_lt h
  · exact Nat.le_of_eq h

/-- Claim C7: history(category, limit) selects the limit most recent reports
by descending timestamp and returns them re-ordered ascending by timestamp,
each point carrying a formatted_time derived from the report's timestamp and
the report's summary; two reports at t1 < t2 give the ascending sequence
[t1-point, t2-point]. -/
theorem history_ascending (rs : List Report) (limit : Nat) (hpos : 0 < limit) :
    history rs limit = (((sortReports rs).take limit).reverse).map toHistoryPoint
    ∧ ((history rs limit).map HistoryPoint.timestamp).Sorted (· ≤ ·)
    ∧ (∀ pt ∈ history rs limit, pt.formatted_time = formatTime pt.timestamp)
    ∧ (∀ r, (toHistoryPoint r).timestamp = r.timestamp
        ∧ (toHistoryPoint r).formatted_time = formatTime r.timestamp
        ∧ (toHistoryPoint r).summary = r.summary)
    ∧ (history rs limit).length = min limit rs.length
    ∧ history [demoT2, demoT1] 2 = [toHistoryPoint demoT1, toHistoryPoint demoT2] := by
  refine ⟨rfl, ?_, ?_, fun r => ⟨rfl, rfl, rfl⟩, ?_, rfl⟩
  · have hs : (((sortReports rs).take limit)).Pairwise descOrder :=
      (sortReports_sorted rs).sublist (List.take_sublist _ _)
    have hrev : ((((sortReports rs).take limit)).reverse).Pairwise
        (fun a b => descOrder b a) := List.pairwise_reverse.mpr hs
    unfold history
    rw [List.map_map]
    exact List.pairwise_map.mpr (hrev.imp fun h => descOrder_timestamp h)
  · intro pt hpt
    unfold history at hpt
    rcases List.mem_map.mp hpt with ⟨r, _, hr⟩
    rw [← hr]
    rfl
  · unfold history
    rw [List.length_map, List.length_reverse, List.length_take,
      (sortReports_perm rs).length_eq]

/-- Witness for C7 at the concrete two-report scenario. -/
theorem history_ascending_witness :
    history [demoT2, demoT1] 2 = [toHistoryPoint demoT1, toHistoryPoint demoT2] :=
  (history_ascending [demoT2, demoT1] 2 (by decide)).2.2.2.2.2

/-- Claim C4: every report the Parser accepts has summary counts satisfying
total = passed + failed; its pass_rate is derived by recomputation from
passed/total and is the zero percentage when total is 0, so the division is
never performed with a zero divisor. -/
theorem report_summary_invariant (c p : String) (doc : RawDoc) (r : Report)
    (h : parseReport c p doc = Except.ok r) :
    r.summary.total = r.summary.passed + r.summary.failed
    ∧ passRate r.summary = formatPercent r.summary.passed r.summary.total
    ∧ (r.summary.total = 0 → passRate r.summary = "0.00%") := by
  unfold parseReport at h
  by_cases hinv : doc.total = doc.passed + doc.failed
  · rw [if_pos hinv] at h
    cases hts : doc.rawTimestamp.bind parseTimestamp with
    | some ts =>
      rw [hts] at h
      injection h with h2
      rw [← h2]
      refine ⟨hinv, rfl, ?_⟩
      intro h0
      simp only [passRate, formatPercent]
      rw [if_pos h0]
    | none =>
      rw [hts] at h
      cases h
  · rw [if_neg hinv] at h
    cases h

/-- Witness for C4 at the concrete well-formed document demoDoc. -/
theorem report_summary_invariant_witness :
    demoReport.summary.total
        = demoReport.summary.passed + demoReport.summary.failed
    ∧ passRate demoReport.summary
        = formatPercent demoReport.summary.passed demoReport.summary.total
    ∧ (demoReport.summary.total = 0 → passRate demoReport.summary = "0.00%") :=
  report_summary_invariant "integration" "a.json" demoDoc demoReport (by rfl)

/-- Claim C6 counterexample: demoBadDoc has no timestamp at all, yet the
Parser fails with InvariantViolation rather than MissingField, because the
summary invariant is checked first; so the claim's clause that the parser
fails with MissingField if and only if the timestamp is absent or unparseable
is false at this document. -/
theorem parser_priority_counterexample :
    demoBadDoc.rawTimestamp = none
    ∧ parseReport "integration" "bad.json" demoBadDoc
        = Except.error (ParseError.InvariantViolation "integration" "bad.json")
    ∧ (Except.error (ParseError.InvariantViolation "integration" "bad.json")
        : Except ParseError Report)
        ≠ Except.error (ParseError.MissingField "integration" "bad.json") := by
  refine ⟨rfl, rfl, ?_⟩
  simp

/-- Claim C6 (amended): the Parser produces a Report or fails with an error
identifying that file; it fails with InvariantViolation iff the summary counts
are inconsistent, fails with MissingField iff the counts are consistent and
the timestamp is absent or unparseable, and unknown extra fields in the
document never affect the outcome. -/
theorem parser_classification (c p : String) (doc : RawDoc) :
    (parseReport c p doc = Except.error (ParseError.InvariantViolation c p)
      ↔ doc.total ≠ doc.passed + doc.failed)
    ∧ (parseReport c p doc = Except.error (ParseError.MissingField c p)
      ↔ doc.total = doc.passed + doc.failed
        ∧ doc.rawTimestamp.bind parseTimestamp = none)
    ∧ ((∃ r, parseReport c p doc = Except.ok r)
        ∨ parseReport c p doc = Except.error (ParseError.MissingField c p)
        ∨ parseReport c p doc = Except.error (ParseError.InvariantViolation c p))
    ∧ (∀ efs, parseReport c p { doc with extraFields := efs }
        = parseReport c p doc) := by
  obtain ⟨ts, t, pa, f, efs0⟩ := doc
  refine ⟨?_, ?_, ?_, fun efs => rfl⟩ <;>
    · simp only [parseReport]
      by_cases hinv : t = pa + f
      · rw [if_pos hinv]
        cases hts : (Option.bind ts parseTimestamp) with
        | some v => simp [hinv, hts]
        | none => simp [hinv, hts]
      · rw [if_neg hinv]
        simp [hinv]

theorem scanCategory_eq (c : String) (files : List (String × RawDoc)) :
    (scanCategory c files).1
        = files.filterMap (fun f => (parseReport c f.1 f.2).toOption)
    ∧ (scanCategory c files).1.length + (scanCategory c files).2
        = files.length := by
  induction files with
  | nil => exact ⟨rfl, rfl⟩
  | cons hd tl ih =>
    obtain ⟨p, d⟩ := hd
    cases hpd : parseReport c p d with
    | ok rep =>
      refine ⟨?_, ?_⟩
      · show (scanCategory c ((p, d) :: tl)).1 = _
        rw [List.filterMap_cons]
        simp only [scanCategory, hpd, Except.toOption, ih.1]
      · simp only [scanCategory, hpd, List.length_cons]
        have h2 := ih.2
        omega
    | error err =>
      refine ⟨?_, ?_⟩
      · rw [List.filterMap_cons]
        simp only [scanCategory, hpd, Except.toOption, ih.1]
      · simp only [scanCategory, hpd, List.length_cons]
        have h2 := ih.2
        omega

/-- Claim C5: a query over a category with a mix of malformed and valid files
returns exactly the reports that parsed together with a count of the skipped
files, never a whole-query error; the scenario with one malformed file beside
two valid ones yields a 2-report listing with 1 skip; and one category's parse
failures never affect another category's response. -/
theorem partial_success_per_category (c : String)
    (files : List (String × RawDoc)) :
    (scanCategory c files).1
        = files.filterMap (fun f => (parseReport c f.1 f.2).toOption)
    ∧ (scanCategory c files).1.length + (scanCategory c files).2 = files.length
    ∧ (scanCategory "integration" demoFiles).1.length = 2
    ∧ (scanCategory "integration" demoFiles).2 = 1
    ∧ (∀ store c2 files2, c2 ≠ c →
        categoryResponse (updateStore store c2 files2) c
          = categoryResponse store c) := by
  refine ⟨(scanCategory_eq c files).1, (scanCategory_eq c files).2,
    rfl, rfl, ?_⟩
  intro store c2 files2 hne
  unfold categoryResponse updateStore
  rw [if_neg fun h => hne h.symm]

theorem lookup_mem : ∀ {cache : Cache} {p : String} {e : CacheEntry},
    List.lookup p cache = some e → (p, e) ∈ cache := by
  intro cache
  induction cache with
  | nil =>
    intro p e h
    simp [List.lookup] at h
  | cons hd tl ih =>
    intro p e h
    obtain ⟨q, v⟩ := hd
    by_cases hpq : p = q
    · subst hpq
      simp only [List.lookup, beq_self_eq_true] at h
      injection h with h2
      exact h2 ▸ List.mem_cons_self _ _
    · simp only [List.lookup, beq_false_of_ne hpq] at h
      exact List.mem_cons_of_mem _ (ih h)

theorem lookup_refreshCache (c : String) (cache : Cache) :
    ∀ (disk : List DiskFile) (f : DiskFile) (e : CacheEntry),
      (disk.map DiskFile.path).Nodup → f ∈ disk →
      (refreshFile c cache f).1 = some e →
      List.lookup f.path (refreshCache c disk cache).1 = some e := by
  intro disk
  induction disk with
  | nil =>
    intro f e _ hf
    exact absurd hf (List.not_mem_nil f)
  | cons g rest ih =>
    intro f e hnd hf hrf
    rcases List.mem_cons.mp hf with heq | hmem
    · subst heq
      have hhead : (refreshCache c (f :: rest) cache).1
          = (f.path, e) :: (refreshCache c rest cache).1 := by
        simp [refreshCache, List.filterMap_cons, hrf]
      rw [hhead]
      simp [List.lookup]
    · have hnd2 := (List.nodup_cons.mp hnd).2
      have hne : f.path ≠ g.path := by
        intro hcontra
        exact (List.nodup_cons.mp hnd).1
          (by rw [← hcontra]; exact List.mem_map_of_mem DiskFile.path hmem)
      cases hg : (refreshFile c cache g).1 with
      | none =>
        have hskip : (refreshCache c (g :: rest) cache).1
            = (refreshCache c rest cache).1 := by
          simp [refreshCache, List.filterMap_cons, hg]
        rw [hskip]
        exact ih f e hnd2 hmem hrf
      | some e2 =>
        have hhead : (refreshCache c (g :: rest) cache).1
            = (g.path, e2) :: (refreshCache c rest cache).1 := by
          simp [refreshCache, List.filterMap_cons, hg]
        rw [hhead]
        simp only [List.lookup, beq_false_of_ne hne]
        exact ih f e hnd2 hmem hrf

theorem refreshFile_fresh (c : String) (cache : Cache) (f : DiskFile)
    (hok : (parseReport c f.path f.doc).toOption.isSome) :
    ∃ e, (refreshFile c cache f).1 = some e
      ∧ e.sourceModifiedAt = f.mtime := by
  have hnew : ∃ e, (parseNew c f).1 = some e ∧ e.sourceModifiedAt = f.mtime := by
    unfold parseNew
    cases hp : parseReport c f.path f.doc with
    | ok r => exact ⟨{ report := r, sourceModifiedAt := f.mtime }, rfl, rfl⟩
    | error err =>
      rw [hp] at hok
      simp [Except.toOption] at hok
  unfold refreshFile
  cases hl : List.lookup f.path cache with
  | some e0 =>
    dsimp only
    by_cases hm : e0.sourceModifiedAt = f.mtime
    · rw [if_pos hm]
      exact ⟨e0, rfl, hm⟩
    · rw [if_neg hm]
      exact hnew
  | none =>
    dsimp only
    exact hnew

theorem refreshFile_sound (c : String) (cache : Cache) (f : DiskFile)
    (e1 : CacheEntry) (hrf : (refreshFile c cache f).1 = some e1)
    (hcoh : ∀ e0, List.lookup f.path cache = some e0 →
      e0.sourceModifiedAt = f.mtime →
      parseReport c f.path f.doc = Except.ok e0.report) :
    e1.sourceModifiedAt = f.mtime
      ∧ parseReport c f.path f.doc = Except.ok e1.report := by
  unfold refreshFile at hrf
  cases hl : List.lookup f.path cache with
  | some e0 =>
    rw [hl] at hrf
    dsimp only at hrf
    by_cases hm : e0.sourceModifiedAt = f.mtime
    · rw [if_pos hm] at hrf
      injection hrf with h2
      rw [← h2]
      exact ⟨hm, hcoh e0 hl hm⟩
    · rw [if_neg hm] at hrf
      unfold parseNew at hrf
      cases hp : parseReport c f.path f.doc with
      | ok r =>
        rw [hp] at hrf
        dsimp only at hrf
        injection hrf with h2
        rw [← h2]
        exact ⟨rfl, rfl⟩
      | error err =>
        rw [hp] at hrf
        dsimp only at hrf
        cases hrf
  | none =>
    rw [hl] at hrf
    dsimp only at hrf
    unfold parseNew at hrf
    cases hp : parseReport c f.path f.doc with
    | ok r =>
      rw [hp] at hrf
      dsimp only at hrf
      injection hrf with h2
      rw [← h2]
      exact ⟨rfl, rfl⟩
    | error err =>
      rw [hp] at hrf
      dsimp only at hrf
      cases hrf

theorem refreshCache_valid (c : String) (disk : List DiskFile) (cache : Cache)
    (hco : Coherent c disk cache) :
    ∀ p e, (p, e) ∈ (refreshCache c disk cache).1 →
      ∃ f, f ∈ disk ∧ f.path = p ∧ e.sourceModifiedAt = f.mtime
        ∧ parseReport c p f.doc = Except.ok e.report := by
  intro p e hpe
  unfold refreshCache at hpe
  rw [List.mem_filterMap] at hpe
  obtain ⟨f, hfdisk, hf⟩ := hpe
  cases hrf : (refreshFile c cache f).1 with
  | none =>
    rw [hrf] at hf
    simp at hf
  | some e1 =>
    rw [hrf] at hf
    simp only [Option.map_some'] at hf
    injection hf with hf2
    have hpath : f.path = p := congrArg Prod.fst hf2
    have he : e1 = e := congrArg Prod.snd hf2
    have hsound := refreshFile_sound c cache f e1 hrf
      (fun e0 hl hm => hco f.path e0 f (lookup_mem hl) hfdisk rfl hm)
    refine ⟨f, hfdisk, hpath, ?_, ?_⟩
    · rw [← he]
      exact hsound.1
    · rw [← he, ← hpath]
      exact hsound.2

theorem refreshCache_evicts (c : String) (disk : List DiskFile)
    (cache : Cache) (p : String) (hp : p ∉ disk.map DiskFile.path)
    (e : CacheEntry) : (p, e) ∉ (refreshCache c disk cache).1 := by
  intro hmem
  unfold refreshCache at hmem
  rw [List.mem_filterMap] at hmem
  obtain ⟨f, hfdisk, hf⟩ := hmem
  cases hrf : (refreshFile c cache f).1 with
  | none =>
    rw [hrf] at hf
    simp at hf
  | some e1 =>
    rw [hrf] at hf
    simp only [Option.map_some'] at hf
    injection hf with hf2
    have hpath : f.path = p := congrArg Prod.fst hf2
    exact hp (hpath ▸ List.mem_map_of_mem DiskFile.path hfdisk)

theorem refreshLog_nodup (c : String) (disk : List DiskFile) (cache : Cache)
    (hnd : (disk.map DiskFile.path).Nodup) :
    ((refreshCache c disk cache).2).Nodup :=
  hnd.sublist (List.Sublist.map DiskFile.path (List.filter_sublist disk))

theorem refresh_second_log_nil (c : String) (disk : List DiskFile)
    (cache : Cache) (hnd : (disk.map DiskFile.path).Nodup)
    (hok : ∀ f ∈ disk, (parseReport c f.path f.doc).toOption.isSome) :
    (refreshCache c disk (refreshCache c disk cache).1).2 = [] := by
  have hall : ∀ f ∈ disk,
      ¬((refreshFile c (refreshCache c disk cache).1 f).2 = true) := by
    intro f hf
    obtain ⟨e, hrf, hm⟩ := refreshFile_fresh c cache f (hok f hf)
    have hl := lookup_refreshCache c cache disk f e hnd hf hrf
    unfold refreshFile
    rw [hl]
    dsimp only
    rw [if_pos hm]
    simp
  show ((disk.filter
    fun f => (refreshFile c (refreshCache c disk cache).1 f).2).map
      DiskFile.path) = []
  rw [List.filter_eq_nil_iff.mpr hall]
  rfl

/-- Claim C3: cache coherency. After any refresh every cache entry's stored
sourceModifiedAt equals its file's current modification time and the entry
holds the parse of that file's current content (so a file whose modification
time changed is re-parsed and served fresh, never stale); files no longer on
disk are evicted; and with an unchanged disk a file is parsed at most once in
a refresh and not at all in a subsequent refresh, so an unchanged file is
parsed exactly once across repeated refreshes. -/
theorem cache_coherency (c : String) (disk : List DiskFile) (cache : Cache)
    (hnd : (disk.map DiskFile.path).Nodup) (hco : Coherent c disk cache) :
    (∀ p e, (p, e) ∈ (refreshCache c disk cache).1 →
        ∃ f, f ∈ disk ∧ f.path = p ∧ e.sourceModifiedAt = f.mtime
          ∧ parseReport c p f.doc = Except.ok e.report)
    ∧ (∀ p, p ∉ disk.map DiskFile.path →
        ∀ e, (p, e) ∉ (refreshCache c disk cache).1)
    ∧ ((refreshCache c disk cache).2).Nodup
    ∧ ((∀ f ∈ disk, (parseReport c f.path f.doc).toOption.isSome) →
        (refreshCache c disk (refreshCache c disk cache).1).2 = []) :=
  ⟨refreshCache_valid c disk cache hco,
   fun p hp e => refreshCache_evicts c disk cache p hp e,
   refreshLog_nodup c disk cache hnd,
   fun hok => refresh_second_log_nil c disk cache hnd hok⟩

/-- Witness for C3 at a concrete one-file disk and the empty cache. -/
theorem cache_coherency_witness :
    ((refreshCache "integration" demoDisk []).2).Nodup :=
  (cache_coherency "integration" demoDisk [] (by decide)
    (fun p e f hpe => (List.not_mem_nil (p, e) hpe).elim)).2.2.1

/-- Claim C9: TestTypeDetail pagination. With n fetched reports and a current
page p between 1 and totalPages, the grid shows exactly the reports at
indices (p-1)*10 through min(p*10, n)-1; totalPages is the ceiling of n/10;
Previous is disabled iff p = 1 and Next is disabled iff p = totalPages. -/
theorem testTypeDetail_pagination (rs : List Report) (p : Nat)
    (h1 : 1 ≤ p) (h2 : p ≤ totalPages rs.length) :
    (currentReports rs p).length = min (p * 10) rs.length - (p - 1) * 10
    ∧ 0 < (currentReports rs p).length
    ∧ (∀ i, i < 10 → (currentReports rs p)[i]? = rs[(p - 1) * 10 + i]?)
    ∧ (∀ i, 10 ≤ i → (currentReports rs p)[i]? = none)
    ∧ rs.length ≤ totalPages rs.length * 10
    ∧ (∀ m, rs.length ≤ m * 10 → totalPages rs.length ≤ m)
    ∧ (prevDisabled p = true ↔ p = 1)
    ∧ (nextDisabled p (totalPages rs.length) = true
        ↔ p = totalPages rs.length) := by
  have htp : totalPages rs.length = (rs.length + 9) / 10 := by
    unfold totalPages reportsPerPage
    rfl
  rw [htp] at h2
  have hlen10 : indexOfLastReport p - indexOfFirstReport p = 10 := by
    unfold indexOfFirstReport indexOfLastReport reportsPerPage
    omega
  have hf : indexOfFirstReport p = (p - 1) * 10 := by
    unfold indexOfFirstReport indexOfLastReport reportsPerPage
    omega
  have hcur : currentReports rs p = (rs.drop ((p - 1) * 10)).take 10 := by
    unfold currentReports
    rw [hlen10, hf]
  have hclen : (currentReports rs p).length = min 10 (rs.length - (p - 1) * 10) := by
    rw [hcur, List.length_take, List.length_drop]
  refine ⟨?_, ?_, ?_, ?_, ?_, ?_, ?_, ?_⟩
  · rw [hclen]
    omega
  · rw [hclen]
    omega
  · intro i hi
    rw [hcur, List.getElem?_take_of_lt hi, List.getElem?_drop]
  · intro i hi
    exact List.getElem?_eq_none (by omega)
  · rw [htp]
    omega
  · intro m hm
    rw [htp]
    omega
  · unfold prevDisabled
    exact beq_iff_eq
  · unfold nextDisabled
    exact beq_iff_eq

/-- Witness for C9 at a concrete 12-report list on page 2. -/
theorem testTypeDetail_pagination_witness :
    (currentReports (List.replicate 12 demoT1) 2).length = 2 := by
  have h := testTypeDetail_pagination (List.replicate 12 demoT1) 2
    (by decide) (by decide)
  exact h.1.trans (by decide)

/-- Claim C10: on the Dashboard a test-type card is rendered iff the summary
entry's has_reports is true, so a configured category with no reports never
appears in the Test Types grid; when no category has reports, the placeholder
is rendered instead of the grid. -/
theorem dashboard_test_types (s : List (String × CategoryData)) :
    (∀ c d, (c, d) ∈ testTypesWithData s ↔ ((c, d) ∈ s ∧ d.has_reports = true))
    ∧ (testTypesSection s = TestTypesView.placeholder
        ↔ ∀ c d, (c, d) ∈ s → d.has_reports = false)
    ∧ (∀ cards, testTypesSection s = TestTypesView.grid cards →
        cards = testTypesWithData s) := by
  have hmem : ∀ c d, (c, d) ∈ testTypesWithData s
      ↔ ((c, d) ∈ s ∧ d.has_reports = true) := by
    intro c d
    unfold testTypesWithData
    exact List.mem_filter
  refine ⟨hmem, ?_, ?_⟩
  · unfold testTypesSection
    by_cases h : (testTypesWithData s).length = 0
    · rw [if_pos h]
      have hnil : testTypesWithData s = [] := List.length_eq_zero.mp h
      refine ⟨fun _ c d hcd => ?_, fun _ => rfl⟩
      have hx := List.filter_eq_nil_iff.mp hnil (c, d) hcd
      simpa using hx
    · rw [if_neg h]
      constructor
      · intro hcontra
        exact absurd hcontra (by simp)
      · intro hall
        have hnil : testTypesWithData s = [] := by
          apply List.filter_eq_nil_iff.mpr
          intro a ha
          simp [hall a.1 a.2 (by simpa using ha)]
        exact absurd (by rw [hnil] at h; exact h rfl) not_false
  · intro cards hg
    unfold testTypesSection at hg
    by_cases h : (testTypesWithData s).length = 0
    · rw [if_pos h] at hg
      cases hg
    · rw [if_neg h] at hg
      injection hg with h2
      exact h2.symm

end ReportsEngine
